import Mathlib

/-!
# Verification of the replica-side durability monitor (PassiveDurabilityMonitor)

A shallow embedding of `engines/ep/src/durability/passive_durability_monitor.cc`
and of the failover-table rollback decision declared in
`engines/ep/src/failover-table.h`.

Modelling conventions:

* `trackedWrites` (a `std::list<SyncWrite>`) is a `List SyncWrite`.  Each
  SyncWrite carries a unique `id` (allocated from a counter `nextId` on
  append); a `Container::iterator` held in a cursor is modelled as
  `Option Nat`: `none` is `Container::end()`, `some i` is the node holding the
  write with id `i`.  `std::list` iterators are stable node handles, so an id
  identifies the pointed-to node across unrelated insertions and erasures.
* During `updateHighPreparedSeqno` the code repeatedly takes
  `getIteratorNext(highPreparedSeqno.it)` while the container is unchanged;
  the walk is modelled by carrying the list suffix that starts just after the
  cursor node (for a `std::list`, `std::next(it)` is exactly the head of that
  suffix).
* Keys (`StoredDocKey`) are opaque: modelled as `Nat`.  Seqnos (`int64_t`)
  are `Int`; the only arithmetic on them is comparison, so overflow does not
  arise.  Counters (`size_t`) are `Nat` (they are only incremented).
* `Monotonic<int64_t>` cursor seqnos: the defining header
  (`durability_monitor_impl.h`) is not part of the excerpt.  Modelled from the
  spec: "lastWriteSeqno assignments are guarded to trap any attempt to move
  backwards" - an assignment of a value below the current one raises
  `Err.monotonicViolation` (a C++ exception propagating out of the operation;
  mutations already made are kept, later ones do not happen).
* `throwException<std::invalid_argument>` / `<std::logic_error>` become
  `Err.invalidArgument` / `Err.logicError`; a failed gsl `Expects` becomes
  `Err.expectsFailed`.  All error paths return the state as mutated up to the
  throw point (C++ exceptions do not roll the object back).
* The externally-read inputs `vb.isReceivingDiskSnapshot()` and
  `vb.getPersistenceSeqno()` are operation arguments.  The outward effect
  `vb.sendSeqnoAck(seqno)` is recorded in a trace `sentAcks`.
-/

/-- `cb::durability::Level` (an enum compared by its integer value). -/
inductive Level where
  | None
  | Majority
  | MajorityAndPersistOnMaster
  | PersistToMajority
deriving DecidableEq, Repr

/-- Integer value of a `cb::durability::Level` enumerator. -/
def Level.toNat : Level → Nat
  | .None => 0
  | .Majority => 1
  | .MajorityAndPersistOnMaster => 2
  | .PersistToMajority => 3

/-- `operator<=` on `cb::durability::Level`. -/
def levelLe (a b : Level) : Bool :=
  decide (a.toNat ≤ b.toNat)

/-- `CheckpointType` of a received snapshot (memory vs disk). -/
inductive CheckpointType where
  | Memory
  | Disk
deriving DecidableEq, Repr

/-- `PassiveDurabilityMonitor::Resolution`. -/
inductive Resolution where
  | Commit
  | Abort
  | CompletionWasDeduped
deriving DecidableEq, Repr

/-- The ways a PDM operation can fail (C++ exceptions / contract aborts). -/
inductive Err where
  | invalidArgument
  | logicError
  | expectsFailed
  | monotonicViolation
deriving DecidableEq, Repr

/-- A tracked `SyncWrite` (the fields the PDM logic reads).  `id` is the
model's stable node handle; `completed` is the set-once completion flag. -/
structure SyncWrite where
  id : Nat
  key : Nat
  bySeqno : Int
  level : Level
  completed : Bool
deriving DecidableEq, Repr

/-- A `DurabilityMonitor::Position`: an iterator into `trackedWrites`
(`none` = `end()`) plus the guarded monotonic `lastWriteSeqno`. -/
structure Position where
  it : Option Nat
  lastWriteSeqno : Int
deriving DecidableEq, Repr

/-- An element of the `receivedSnapshotEnds` queue: `{seqno, type}`. -/
structure SnapshotEndInfo where
  seqno : Int
  ctype : CheckpointType
deriving DecidableEq, Repr

/-- `PassiveDurabilityMonitor::State`.  The queue `receivedSnapshotEnds` has
its front at the list head.  `nextId` feeds fresh SyncWrite ids. -/
structure State where
  trackedWrites : List SyncWrite
  nextId : Nat
  highPreparedSeqno : Position
  highCompletedSeqno : Position
  receivedSnapshotEnds : List SnapshotEndInfo
  totalAccepted : Nat
  totalCommitted : Nat
  totalAborted : Nat
deriving DecidableEq, Repr

/-- The PDM together with the `seqnoToAck` latch and the trace of seqnos
passed to `vb.sendSeqnoAck` (oldest first). -/
structure SysState where
  pdm : State
  seqnoToAck : Int
  sentAcks : List Int
deriving DecidableEq, Repr

/-- Elements strictly after the node with id `i` (the suffix addressed by
`std::next` of that node's iterator). -/
def afterId : List SyncWrite → Nat → List SyncWrite
  | [], _ => []
  | w :: rest, i => if w.id = i then rest else afterId rest i

/-- The suffix of `trackedWrites` starting at
`State::getIteratorNext(it)`: for `it == end()` that is `begin()`, i.e. the
whole list; otherwise everything after the pointed node. -/
def iterSuffix (tw : List SyncWrite) : Option Nat → List SyncWrite
  | none => tw
  | some i => afterId tw i

/-- `State::getIteratorNext` as an element (the write it dereferences to),
`none` meaning `end()`. -/
def getIteratorNext (tw : List SyncWrite) (it : Option Nat) : Option SyncWrite :=
  (iterSuffix tw it).head?

/-- The erase step of `addSyncWrite` when `overwritingPrepareSeqno` is given:
scan for the first write with the key; on a match, `Expects` that its seqno
equals the supplied one, then erase it.  Returns the new list, the id of the
erased node (if any) and the `Expects` failure (if any). -/
def owErase (key : Nat) (ow : Int) : List SyncWrite →
    List SyncWrite × Option Nat × Option Err
  | [] => ([], none, none)
  | w :: rest =>
    if w.key = key then
      if w.bySeqno = ow then (rest, some w.id, none)
      else (w :: rest, none, some Err.expectsFailed)
    else
      let r := owErase key ow rest
      (w :: r.1, r.2.1, r.2.2)

/-- Reset a cursor's iterator to `end()` if it points at the erased node. -/
def resetIfErased (pos : Position) (erased : Option Nat) : Position :=
  match erased with
  | some i => if pos.it = some i then { pos with it := none } else pos
  | none => pos

/-- Tail of `addSyncWrite`: the development-build duplicate check followed by
`emplace_back` and `totalAccepted++`. -/
def addAppend (devAsserts : Bool) (s : State) (key : Nat) (bySeqno : Int)
    (level : Level) : State × Option Err :=
  if devAsserts && s.trackedWrites.any (fun w => !w.completed && w.key == key) then
    (s, some Err.logicError)
  else
    ({ s with
        trackedWrites :=
          s.trackedWrites ++ [⟨s.nextId, key, bySeqno, level, false⟩],
        nextId := s.nextId + 1,
        totalAccepted := s.totalAccepted + 1 }, none)

/-- `PassiveDurabilityMonitor::addSyncWrite`.  `devAsserts` selects the
`CB_DEVELOPMENT_ASSERTS` build flavour. -/
def addSyncWrite (devAsserts : Bool) (s : State) (key : Nat) (bySeqno : Int)
    (level : Level) (timeoutIsDefault : Bool)
    (overwritingPrepareSeqno : Option Int) : State × Option Err :=
  if level = Level.None then (s, some Err.invalidArgument)
  else if timeoutIsDefault then (s, some Err.invalidArgument)
  else
    match overwritingPrepareSeqno with
    | none => addAppend devAsserts s key bySeqno level
    | some ow =>
      let r := owErase key ow s.trackedWrites
      match r.2.2 with
      | some e => (s, some e)
      | none =>
        let s1 := { s with
          trackedWrites := r.1,
          highPreparedSeqno := resetIfErased s.highPreparedSeqno r.2.1,
          highCompletedSeqno := resetIfErased s.highCompletedSeqno r.2.1 }
        addAppend devAsserts s1 key bySeqno level

/-- The prefix-erase loop of `State::checkForAndRemovePrepares`: erase from
the head while `bySeqno <= fence`, resetting a cursor iterator to `end()`
when its node is erased. -/
def pruneLoop (fence : Int) :
    List SyncWrite → Option Nat → Option Nat →
    List SyncWrite × Option Nat × Option Nat
  | [], hpsIt, hcsIt => ([], hpsIt, hcsIt)
  | w :: rest, hpsIt, hcsIt =>
    if w.bySeqno ≤ fence then
      pruneLoop fence rest
        (if hpsIt = some w.id then none else hpsIt)
        (if hcsIt = some w.id then none else hcsIt)
    else (w :: rest, hpsIt, hcsIt)

/-- `State::checkForAndRemovePrepares`. -/
def checkForAndRemovePrepares (s : State) : State :=
  if s.trackedWrites.isEmpty then s
  else
    let fence := min s.highCompletedSeqno.lastWriteSeqno
                     s.highPreparedSeqno.lastWriteSeqno
    let r := pruneLoop fence s.trackedWrites
        s.highPreparedSeqno.it s.highCompletedSeqno.it
    { s with
        trackedWrites := r.1,
        highPreparedSeqno := { s.highPreparedSeqno with it := r.2.1 },
        highCompletedSeqno := { s.highCompletedSeqno with it := r.2.2 } }

/-- The candidate SyncWrite that `completeSyncWrite` resolves:
`getIteratorNext(highCompletedSeqno.it)` under ordered completion, otherwise
the scan from `begin()` for the first write with the given key. -/
def candidateOf (s : State) (key : Nat) (receivingDiskSnapshot : Bool) :
    Option SyncWrite :=
  if receivingDiskSnapshot then
    s.trackedWrites.find? (fun w => w.key == key)
  else
    getIteratorNext s.trackedWrites s.highCompletedSeqno.it

/-- The `prepareSeqno`-vs-candidate check of `completeSyncWrite`. -/
def seqnoMismatch (c : SyncWrite) : Option Int → Bool
  | some p => c.bySeqno != p
  | none => false

/-- Tail of `completeSyncWrite` after the HCS update: `Expects` the candidate
was not already completed, mark it completed, prune, bump the counter. -/
def completeFinish (s : State) (next : SyncWrite) (res : Resolution) :
    State × Option Err :=
  if next.completed then (s, some Err.expectsFailed)
  else
    let s2 := { s with
      trackedWrites := s.trackedWrites.map
        (fun w => if w.id = next.id then { w with completed := true } else w) }
    let s3 := checkForAndRemovePrepares s2
    match res with
    | .Commit => ({ s3 with totalCommitted := s3.totalCommitted + 1 }, none)
    | .Abort => ({ s3 with totalAborted := s3.totalAborted + 1 }, none)
    | .CompletionWasDeduped => (s3, none)

/-- `PassiveDurabilityMonitor::completeSyncWrite`.
`receivingDiskSnapshot` is the value of `vb.isReceivingDiskSnapshot()`. -/
def completeSyncWrite (s : State) (key : Nat) (res : Resolution)
    (prepareSeqno : Option Int) (receivingDiskSnapshot : Bool) :
    State × Option Err :=
  if s.trackedWrites.isEmpty then (s, some Err.logicError)
  else
    match candidateOf s key receivingDiskSnapshot with
    | none => (s, some Err.logicError)
    | some next =>
      if next.key ≠ key then (s, some Err.logicError)
      else if seqnoMismatch next prepareSeqno then (s, some Err.logicError)
      else if !receivingDiskSnapshot
          || decide (next.bySeqno > s.highCompletedSeqno.lastWriteSeqno) then
        -- the guarded monotonic assignment to highCompletedSeqno.lastWriteSeqno
        if next.bySeqno < s.highCompletedSeqno.lastWriteSeqno then
          (s, some Err.monotonicViolation)
        else
          completeFinish
            { s with highCompletedSeqno := ⟨some next.id, next.bySeqno⟩ }
            next res
      else completeFinish s next res

/-- The loop condition of the HPS-advance `for` loop:
`inSnapshot(snapEnd, next) && next->getDurabilityReqs().getLevel() <= max`. -/
def hpsPred (snapEnd : Int) (maxLv : Level) (w : SyncWrite) : Bool :=
  decide (w.bySeqno ≤ snapEnd) && levelLe w.level maxLv

/-- The inner `for` loop of `updateHighPreparedSeqno`: advance the HPS over
eligible prepares.  `suffix` is the list after the current HPS node; the
result is the new position, the not-yet-consumed suffix, and whether the
monotonic guard trapped. -/
def advanceHpsLoop (snapEnd : Int) (maxLv : Level) :
    Position → List SyncWrite → Position × List SyncWrite × Bool
  | pos, [] => (pos, [], false)
  | pos, w :: rest =>
    if hpsPred snapEnd maxLv w then
      if w.bySeqno < pos.lastWriteSeqno then (pos, w :: rest, true)
      else advanceHpsLoop snapEnd maxLv ⟨some w.id, w.bySeqno⟩ rest
    else (pos, w :: rest, false)

/-- `snapshotFullyPersisted`: `vb.getPersistenceSeqno() >= snapshotEnd.seqno`. -/
def snapFullyPersisted (persisted : Int) (snap : SnapshotEndInfo) : Bool :=
  decide (snap.seqno ≤ persisted)

/-- Whether the snapshot is a disk snapshot. -/
def snapIsDisk (snap : SnapshotEndInfo) : Bool :=
  snap.ctype == CheckpointType.Disk

/-- `maxLevelCanAdvanceOver`: the level table of `updateHighPreparedSeqno`. -/
def snapMaxLevel (persisted : Int) (snap : SnapshotEndInfo) : Level :=
  if snapFullyPersisted persisted snap then Level.PersistToMajority
  else if !snapIsDisk snap then Level.MajorityAndPersistOnMaster
  else Level.None

/-- The `break` condition at the bottom of the outer loop: an unpersisted
disk snapshot, or a next prepare still inside this snapshot. -/
def snapBlocked (snap : SnapshotEndInfo) (persisted : Int)
    (suffix1 : List SyncWrite) : Bool :=
  (snapIsDisk snap && !snapFullyPersisted persisted snap) ||
    (match suffix1.head? with
     | some w => decide (w.bySeqno ≤ snap.seqno)
     | none => false)

/-- The outer `while (!receivedSnapshotEnds.empty())` loop of
`updateHighPreparedSeqno`.  Returns the final HPS position, the remaining
queue, and the trapped monotonicity violation, if any. -/
def processSnapshots (persisted : Int) :
    List SnapshotEndInfo → Position → List SyncWrite →
    Position × List SnapshotEndInfo × Option Err
  | [], pos, _ => (pos, [], none)
  | snap :: rest, pos, suffix =>
    let a := advanceHpsLoop snap.seqno (snapMaxLevel persisted snap) pos suffix
    if a.2.2 then (a.1, snap :: rest, some Err.monotonicViolation)
    else if snapIsDisk snap && snapFullyPersisted persisted snap &&
        decide (snap.seqno < a.1.lastWriteSeqno) then
      -- guarded assignment of the disk-snapshot jump would move backwards
      (a.1, snap :: rest, some Err.monotonicViolation)
    else
      let pos2 := if snapIsDisk snap && snapFullyPersisted persisted snap then
          { a.1 with lastWriteSeqno := snap.seqno }
        else a.1
      if snapBlocked snap persisted a.2.1 then (pos2, snap :: rest, none)
      else processSnapshots persisted rest pos2 a.2.1

/-- `State::updateHighPreparedSeqno`.  `persisted` is the value of
`vb.getPersistenceSeqno()`. -/
def updateHighPreparedSeqno (persisted : Int) (s : State) : State × Option Err :=
  let prevHPS := s.highPreparedSeqno.lastWriteSeqno
  let r := processSnapshots persisted s.receivedSnapshotEnds
      s.highPreparedSeqno (iterSuffix s.trackedWrites s.highPreparedSeqno.it)
  let s1 := { s with highPreparedSeqno := r.1, receivedSnapshotEnds := r.2.1 }
  match r.2.2 with
  | some e => (s1, some e)
  | none =>
    if s1.highPreparedSeqno.lastWriteSeqno ≠ prevHPS then
      if prevHPS < s1.highPreparedSeqno.lastWriteSeqno then
        (checkForAndRemovePrepares s1, none)
      else (s1, some Err.expectsFailed)
    else (s1, none)

/-- `PassiveDurabilityMonitor::storeSeqnoAck`. -/
def storeSeqnoAck (sys : SysState) (prevHps newHps : Int) : SysState :=
  if prevHps ≠ newHps ∧ sys.seqnoToAck < newHps then
    { sys with seqnoToAck := newHps }
  else sys

/-- `PassiveDurabilityMonitor::sendSeqnoAck`: transmit the latched seqno if
non-zero, then reset the latch. -/
def sendSeqnoAck (sys : SysState) : SysState :=
  if sys.seqnoToAck ≠ 0 then
    { sys with sentAcks := sys.sentAcks ++ [sys.seqnoToAck], seqnoToAck := 0 }
  else { sys with seqnoToAck := 0 }

/-- `PassiveDurabilityMonitor::notifySnapshotEndReceived`. -/
def notifySnapshotEndReceived (sys : SysState) (snapEnd : Int)
    (receivingDiskSnapshot : Bool) (persisted : Int) : SysState × Option Err :=
  let s0 := { sys.pdm with
    receivedSnapshotEnds := sys.pdm.receivedSnapshotEnds ++
      [⟨snapEnd,
        if receivingDiskSnapshot then CheckpointType.Disk
        else CheckpointType.Memory⟩] }
  let prevHps := s0.highPreparedSeqno.lastWriteSeqno
  let r := updateHighPreparedSeqno persisted s0
  match r.2 with
  | some e => ({ sys with pdm := r.1 }, some e)
  | none =>
    let sys2 := storeSeqnoAck { sys with pdm := r.1 } prevHps
        r.1.highPreparedSeqno.lastWriteSeqno
    (sendSeqnoAck sys2, none)

/-- `PassiveDurabilityMonitor::notifyLocalPersistence`. -/
def notifyLocalPersistence (sys : SysState) (persisted : Int) :
    SysState × Option Err :=
  let prevHps := sys.pdm.highPreparedSeqno.lastWriteSeqno
  let r := updateHighPreparedSeqno persisted sys.pdm
  match r.2 with
  | some e => ({ sys with pdm := r.1 }, some e)
  | none =>
    let sys2 := storeSeqnoAck { sys with pdm := r.1 } prevHps
        r.1.highPreparedSeqno.lastWriteSeqno
    (sendSeqnoAck sys2, none)

/-- One invocation of a public PDM entry point, with the externally-supplied
inputs (durability requirements, snapshot type, persisted seqno) inlined. -/
inductive Op where
  | addSyncWrite (key : Nat) (bySeqno : Int) (level : Level)
      (timeoutIsDefault : Bool) (overwritingPrepareSeqno : Option Int)
  | completeSyncWrite (key : Nat) (res : Resolution)
      (prepareSeqno : Option Int) (receivingDiskSnapshot : Bool)
  | notifySnapshotEndReceived (snapEnd : Int) (receivingDiskSnapshot : Bool)
      (persistedSeqno : Int)
  | notifyLocalPersistence (persistedSeqno : Int)
deriving DecidableEq, Repr

/-- Run one operation; the returned state is the post-state (partial when the
operation raised, exactly as the C++ object is left on a throw). -/
def stepOp (devAsserts : Bool) (op : Op) (sys : SysState) :
    SysState × Option Err :=
  match op with
  | .addSyncWrite k seq lvl tdef ow =>
    let r := addSyncWrite devAsserts sys.pdm k seq lvl tdef ow
    ({ sys with pdm := r.1 }, r.2)
  | .completeSyncWrite k res ps disk =>
    let r := completeSyncWrite sys.pdm k res ps disk
    ({ sys with pdm := r.1 }, r.2)
  | .notifySnapshotEndReceived se disk p => notifySnapshotEndReceived sys se disk p
  | .notifyLocalPersistence p => notifyLocalPersistence sys p

/-- The post-state of one operation. -/
def stepState (devAsserts : Bool) (op : Op) (sys : SysState) : SysState :=
  (stepOp devAsserts op sys).1

/-- Run a sequence of operations. -/
def runOps (devAsserts : Bool) (ops : List Op) (sys : SysState) : SysState :=
  ops.foldl (fun s op => stepState devAsserts op s) sys

/-- A freshly constructed PDM: no tracked writes, both cursors at
`end()` with `lastWriteSeqno = 0`, empty snapshot queue, zero counters,
ack latch clear. -/
def initState : SysState :=
  ⟨⟨[], 0, ⟨none, 0⟩, ⟨none, 0⟩, [], 0, 0, 0⟩, 0, []⟩

/-- `failover_entry_t` from `failover-table.h`. -/
structure FailoverEntry where
  vb_uuid : Nat
  by_seqno : Nat
deriving DecidableEq, Repr

/-- Locate the entry with the given uuid in a newest-first failover table,
returning it together with the end of its branch (the seqno of the entry
above it, or the current high seqno when it is the head). -/
def findBranch : List FailoverEntry → Nat → Nat → Option (FailoverEntry × Nat)
  | [], _, _ => none
  | e :: rest, uuid, upper =>
    if e.vb_uuid = uuid then some (e, upper)
    else findBranch rest uuid e.by_seqno

/-- Modelled from the spec: `FailoverTable::needsRollback`
(`failover-table.h` only declares it; `failover-table.cc` is not part of the
excerpt).  Follows spec section 4.1 step by step: (1) `start == 0` and not
strict means no rollback; (2) unknown uuid rolls back to 0; (3) the branch of
the matching entry ends at the next-newer entry's seqno, or at `cur` for the
head; (4) no rollback when `start` lies within the branch, the client's
snapshot interval lies wholly inside the same branch, and `start ≥ purge`;
(5) otherwise roll back to `min(branchEnd, snap_start)`, further lowered to
`maxCollectionHighSeqno` when provided. -/
def needsRollback (table : List FailoverEntry) (start_seqno cur_seqno vb_uuid
    snap_start_seqno snap_end_seqno purge_seqno : Nat)
    (strictVbUuidMatch : Bool) (maxCollectionHighSeqno : Option Nat) :
    Bool × Nat :=
  if start_seqno = 0 ∧ strictVbUuidMatch = false then (false, 0)
  else
    match findBranch table vb_uuid cur_seqno with
    | none => (true, 0)
    | some (entry, branchEnd) =>
      if entry.by_seqno ≤ start_seqno ∧ start_seqno ≤ branchEnd ∧
          entry.by_seqno ≤ snap_start_seqno ∧ snap_end_seqno ≤ branchEnd ∧
          purge_seqno ≤ start_seqno then
        (false, 0)
      else
        let rb := min branchEnd snap_start_seqno
        (true, match maxCollectionHighSeqno with
               | some m => min rb m
               | none => rb)

/-- The invariant tying the `seqnoToAck` latch and the trace of transmitted
acks to the HPS. -/
def AckInv (sys : SysState) : Prop :=
  0 ≤ sys.pdm.highPreparedSeqno.lastWriteSeqno ∧
  List.Chain' (· < ·) sys.sentAcks ∧
  (∀ a ∈ sys.sentAcks, a ≤ sys.pdm.highPreparedSeqno.lastWriteSeqno) ∧
  sys.seqnoToAck ≤ sys.pdm.highPreparedSeqno.lastWriteSeqno ∧
  (∀ a ∈ sys.sentAcks, sys.seqnoToAck = 0 ∨ a < sys.seqnoToAck)

/-! ## Basic facts about the container helpers -/

theorem afterId_subset {tw : List SyncWrite} {i : Nat} {w : SyncWrite}
    (h : w ∈ afterId tw i) : w ∈ tw := by
  induction tw with
  | nil => simp [afterId] at h
  | cons x rest ih =>
    by_cases hx : x.id = i
    · simp [afterId, hx] at h
      exact List.mem_cons_of_mem _ h
    · simp [afterId, hx] at h
      exact List.mem_cons_of_mem _ (ih h)

theorem iterSuffix_subset {tw : List SyncWrite} {it : Option Nat}
    {w : SyncWrite} (h : w ∈ iterSuffix tw it) : w ∈ tw := by
  cases it with
  | none => simpa [iterSuffix] using h
  | some i => exact afterId_subset (by simpa [iterSuffix] using h)

theorem resetIfErased_lastWriteSeqno (pos : Position) (erased : Option Nat) :
    (resetIfErased pos erased).lastWriteSeqno = pos.lastWriteSeqno := by
  cases erased with
  | none => rfl
  | some i => simp only [resetIfErased]; split <;> rfl

/-! ## The prune loop -/

theorem pruneLoop_trackedWrites (fence : Int) :
    ∀ (tw : List SyncWrite) (a b : Option Nat),
      (pruneLoop fence tw a b).1 =
        tw.dropWhile (fun w => decide (w.bySeqno ≤ fence)) := by
  intro tw
  induction tw with
  | nil => intro a b; rfl
  | cons w rest ih =>
    intro a b
    by_cases h : w.bySeqno ≤ fence
    · simp [pruneLoop, h, List.dropWhile, ih]
    · simp [pruneLoop, h, List.dropWhile]

theorem checkForAndRemovePrepares_trackedWrites (s : State) :
    (checkForAndRemovePrepares s).trackedWrites =
      s.trackedWrites.dropWhile
        (fun w => decide (w.bySeqno ≤
          min s.highCompletedSeqno.lastWriteSeqno
              s.highPreparedSeqno.lastWriteSeqno)) := by
  by_cases h : s.trackedWrites.isEmpty
  · rw [List.isEmpty_iff] at h
    simp [checkForAndRemovePrepares, h]
  · simp [checkForAndRemovePrepares, h, pruneLoop_trackedWrites]

theorem checkForAndRemovePrepares_hps_last (s : State) :
    (checkForAndRemovePrepares s).highPreparedSeqno.lastWriteSeqno =
      s.highPreparedSeqno.lastWriteSeqno := by
  simp only [checkForAndRemovePrepares]
  split <;> rfl

theorem checkForAndRemovePrepares_hcs_last (s : State) :
    (checkForAndRemovePrepares s).highCompletedSeqno.lastWriteSeqno =
      s.highCompletedSeqno.lastWriteSeqno := by
  simp only [checkForAndRemovePrepares]
  split <;> rfl

theorem checkForAndRemovePrepares_queue (s : State) :
    (checkForAndRemovePrepares s).receivedSnapshotEnds =
      s.receivedSnapshotEnds := by
  simp only [checkForAndRemovePrepares]
  split <;> rfl

/-! ## Monotonicity of the HPS advancement -/

theorem advanceHpsLoop_mono (e : Int) (m : Level) :
    ∀ (suffix : List SyncWrite) (pos : Position),
      pos.lastWriteSeqno ≤ (advanceHpsLoop e m pos suffix).1.lastWriteSeqno := by
  intro suffix
  induction suffix with
  | nil => intro pos; simp [advanceHpsLoop]
  | cons w rest ih =>
    intro pos
    by_cases hp : hpsPred e m w
    · by_cases ht : w.bySeqno < pos.lastWriteSeqno
      · simp [advanceHpsLoop, hp, ht]
      · push_neg at ht
        simpa [advanceHpsLoop, hp, not_lt.mpr ht] using
          le_trans ht (ih ⟨some w.id, w.bySeqno⟩)
    · simp [advanceHpsLoop, hp]

theorem processSnapshots_pos2_mono (p : Int) (snap : SnapshotEndInfo)
    (pos : Position) (suffix : List SyncWrite)
    (hjump : ¬ (snapIsDisk snap && snapFullyPersisted p snap &&
      decide (snap.seqno <
        (advanceHpsLoop snap.seqno (snapMaxLevel p snap) pos suffix).1.lastWriteSeqno)) = true) :
    pos.lastWriteSeqno ≤
      (if snapIsDisk snap && snapFullyPersisted p snap then
        { (advanceHpsLoop snap.seqno (snapMaxLevel p snap) pos suffix).1 with
            lastWriteSeqno := snap.seqno }
      else (advanceHpsLoop snap.seqno (snapMaxLevel p snap) pos suffix).1).lastWriteSeqno := by
  have hadv := advanceHpsLoop_mono snap.seqno (snapMaxLevel p snap) suffix pos
  split
  · rename_i hdisk
    simp only [hdisk, Bool.true_and, decide_eq_true_eq] at hjump
    exact le_trans hadv (le_of_not_lt hjump)
  · exact hadv

theorem processSnapshots_mono (p : Int) :
    ∀ (queue : List SnapshotEndInfo) (pos : Position) (suffix : List SyncWrite),
      pos.lastWriteSeqno ≤ (processSnapshots p queue pos suffix).1.lastWriteSeqno := by
  intro queue
  induction queue with
  | nil => intro pos suffix; simp [processSnapshots]
  | cons snap rest ih =>
    intro pos suffix
    have hadv := advanceHpsLoop_mono snap.seqno (snapMaxLevel p snap) suffix pos
    simp only [processSnapshots]
    split
    · exact hadv
    · split
      · exact hadv
      · rename_i htrap hjump
        split
        · exact processSnapshots_pos2_mono p snap pos suffix hjump
        · exact le_trans (processSnapshots_pos2_mono p snap pos suffix hjump) (ih _ _)

/-! ## Cursor preservation / monotonicity across the operations -/

theorem processSnapshots_queue_and_err (p : Int)
    (queue : List SnapshotEndInfo) (pos : Position) (suffix : List SyncWrite) :
    (processSnapshots p queue pos suffix).2.2 = none ∨
      (processSnapshots p queue pos suffix).2.2 = some Err.monotonicViolation := by
  induction queue generalizing pos suffix with
  | nil => simp [processSnapshots]
  | cons snap rest ih =>
    simp only [processSnapshots]
    split
    · right; rfl
    · split
      · right; rfl
      · split
        · left; rfl
        · exact ih _ _

theorem updateHighPreparedSeqno_hps_mono (p : Int) (s : State) :
    s.highPreparedSeqno.lastWriteSeqno ≤
      (updateHighPreparedSeqno p s).1.highPreparedSeqno.lastWriteSeqno := by
  have hm := processSnapshots_mono p s.receivedSnapshotEnds s.highPreparedSeqno
    (iterSuffix s.trackedWrites s.highPreparedSeqno.it)
  simp only [updateHighPreparedSeqno]
  split
  · exact hm
  · split
    · split
      · rw [checkForAndRemovePrepares_hps_last]; exact hm
      · exact hm
    · exact hm

theorem updateHighPreparedSeqno_hcs_last (p : Int) (s : State) :
    (updateHighPreparedSeqno p s).1.highCompletedSeqno.lastWriteSeqno =
      s.highCompletedSeqno.lastWriteSeqno := by
  simp only [updateHighPreparedSeqno]
  split
  · rfl
  · split
    · split
      · rw [checkForAndRemovePrepares_hcs_last]
      · rfl
    · rfl

theorem addAppend_hps (d : Bool) (s : State) (k : Nat) (q : Int) (l : Level) :
    (addAppend d s k q l).1.highPreparedSeqno = s.highPreparedSeqno := by
  simp only [addAppend]; split <;> rfl

theorem addAppend_hcs (d : Bool) (s : State) (k : Nat) (q : Int) (l : Level) :
    (addAppend d s k q l).1.highCompletedSeqno = s.highCompletedSeqno := by
  simp only [addAppend]; split <;> rfl

theorem addSyncWrite_hps_last (d : Bool) (s : State) (k : Nat) (q : Int)
    (l : Level) (t : Bool) (ow : Option Int) :
    (addSyncWrite d s k q l t ow).1.highPreparedSeqno.lastWriteSeqno =
      s.highPreparedSeqno.lastWriteSeqno := by
  simp only [addSyncWrite]
  split
  · rfl
  · split
    · rfl
    · match ow with
      | none => rw [addAppend_hps]
      | some owv =>
        simp only []
        split
        · rfl
        · rw [addAppend_hps]
          exact resetIfErased_lastWriteSeqno _ _

theorem addSyncWrite_hcs_last (d : Bool) (s : State) (k : Nat) (q : Int)
    (l : Level) (t : Bool) (ow : Option Int) :
    (addSyncWrite d s k q l t ow).1.highCompletedSeqno.lastWriteSeqno =
      s.highCompletedSeqno.lastWriteSeqno := by
  simp only [addSyncWrite]
  split
  · rfl
  · split
    · rfl
    · match ow with
      | none => rw [addAppend_hcs]
      | some owv =>
        simp only []
        split
        · rfl
        · rw [addAppend_hcs]
          exact resetIfErased_lastWriteSeqno _ _

theorem completeFinish_hps_last (s : State) (n : SyncWrite) (r : Resolution) :
    (completeFinish s n r).1.highPreparedSeqno.lastWriteSeqno =
      s.highPreparedSeqno.lastWriteSeqno := by
  simp only [completeFinish]
  split
  · rfl
  · split <;> simp [checkForAndRemovePrepares_hps_last]

theorem completeFinish_hcs_last (s : State) (n : SyncWrite) (r : Resolution) :
    (completeFinish s n r).1.highCompletedSeqno.lastWriteSeqno =
      s.highCompletedSeqno.lastWriteSeqno := by
  simp only [completeFinish]
  split
  · rfl
  · split <;> simp [checkForAndRemovePrepares_hcs_last]

theorem completeSyncWrite_hps_last (s : State) (k : Nat) (r : Resolution)
    (ps : Option Int) (disk : Bool) :
    (completeSyncWrite s k r ps disk).1.highPreparedSeqno.lastWriteSeqno =
      s.highPreparedSeqno.lastWriteSeqno := by
  simp only [completeSyncWrite]
  split
  · rfl
  · split
    · rfl
    · split
      · rfl
      · split
        · rfl
        · split
          · split
            · rfl
            · rw [completeFinish_hps_last]
          · rw [completeFinish_hps_last]

theorem completeSyncWrite_hcs_mono (s : State) (k : Nat) (r : Resolution)
    (ps : Option Int) (disk : Bool) :
    s.highCompletedSeqno.lastWriteSeqno ≤
      (completeSyncWrite s k r ps disk).1.highCompletedSeqno.lastWriteSeqno := by
  simp only [completeSyncWrite]
  split
  · exact le_refl _
  · split
    · exact le_refl _
    · split
      · exact le_refl _
      · split
        · exact le_refl _
        · split
          · split
            · exact le_refl _
            · rename_i hnotlt
              rw [completeFinish_hcs_last]
              exact le_of_not_lt (by simpa using hnotlt)
          · rw [completeFinish_hcs_last]

theorem storeSeqnoAck_pdm (sys : SysState) (a b : Int) :
    (storeSeqnoAck sys a b).pdm = sys.pdm := by
  simp only [storeSeqnoAck]; split <;> rfl

theorem sendSeqnoAck_pdm (sys : SysState) :
    (sendSeqnoAck sys).pdm = sys.pdm := by
  simp only [sendSeqnoAck]; split <;> rfl

theorem notifySnapshotEndReceived_hps_mono (sys : SysState) (se : Int)
    (disk : Bool) (p : Int) :
    sys.pdm.highPreparedSeqno.lastWriteSeqno ≤
      (notifySnapshotEndReceived sys se disk p).1.pdm.highPreparedSeqno.lastWriteSeqno := by
  simp only [notifySnapshotEndReceived]
  have h := updateHighPreparedSeqno_hps_mono p
    { sys.pdm with
      receivedSnapshotEnds := sys.pdm.receivedSnapshotEnds ++
        [⟨se, if disk then CheckpointType.Disk else CheckpointType.Memory⟩] }
  split
  · rename_i e heq
    exact h
  · rename_i heq
    rw [sendSeqnoAck_pdm, storeSeqnoAck_pdm]
    exact h

theorem notifySnapshotEndReceived_hcs_last (sys : SysState) (se : Int)
    (disk : Bool) (p : Int) :
    (notifySnapshotEndReceived sys se disk p).1.pdm.highCompletedSeqno.lastWriteSeqno =
      sys.pdm.highCompletedSeqno.lastWriteSeqno := by
  simp only [notifySnapshotEndReceived]
  have h := updateHighPreparedSeqno_hcs_last p
    { sys.pdm with
      receivedSnapshotEnds := sys.pdm.receivedSnapshotEnds ++
        [⟨se, if disk then CheckpointType.Disk else CheckpointType.Memory⟩] }
  split
  · exact h
  · rw [sendSeqnoAck_pdm, storeSeqnoAck_pdm]
    exact h

theorem notifyLocalPersistence_hps_mono (sys : SysState) (p : Int) :
    sys.pdm.highPreparedSeqno.lastWriteSeqno ≤
      (notifyLocalPersistence sys p).1.pdm.highPreparedSeqno.lastWriteSeqno := by
  simp only [notifyLocalPersistence]
  have h := updateHighPreparedSeqno_hps_mono p sys.pdm
  split
  · exact h
  · rw [sendSeqnoAck_pdm, storeSeqnoAck_pdm]
    exact h

theorem notifyLocalPersistence_hcs_last (sys : SysState) (p : Int) :
    (notifyLocalPersistence sys p).1.pdm.highCompletedSeqno.lastWriteSeqno =
      sys.pdm.highCompletedSeqno.lastWriteSeqno := by
  simp only [notifyLocalPersistence]
  have h := updateHighPreparedSeqno_hcs_last p sys.pdm
  split
  · exact h
  · rw [sendSeqnoAck_pdm, storeSeqnoAck_pdm]
    exact h

theorem stepState_hps_mono (d : Bool) (op : Op) (sys : SysState) :
    sys.pdm.highPreparedSeqno.lastWriteSeqno ≤
      (stepState d op sys).pdm.highPreparedSeqno.lastWriteSeqno := by
  cases op with
  | addSyncWrite k q l t ow =>
    simp only [stepState, stepOp]
    exact le_of_eq (addSyncWrite_hps_last d sys.pdm k q l t ow).symm
  | completeSyncWrite k r ps disk =>
    simp only [stepState, stepOp]
    exact le_of_eq (completeSyncWrite_hps_last sys.pdm k r ps disk).symm
  | notifySnapshotEndReceived se disk p =>
    exact notifySnapshotEndReceived_hps_mono sys se disk p
  | notifyLocalPersistence p =>
    exact notifyLocalPersistence_hps_mono sys p

theorem stepState_hcs_mono (d : Bool) (op : Op) (sys : SysState) :
    sys.pdm.highCompletedSeqno.lastWriteSeqno ≤
      (stepState d op sys).pdm.highCompletedSeqno.lastWriteSeqno := by
  cases op with
  | addSyncWrite k q l t ow =>
    simp only [stepState, stepOp]
    exact le_of_eq (addSyncWrite_hcs_last d sys.pdm k q l t ow).symm
  | completeSyncWrite k r ps disk =>
    simp only [stepState, stepOp]
    exact completeSyncWrite_hcs_mono sys.pdm k r ps disk
  | notifySnapshotEndReceived se disk p =>
    exact le_of_eq (notifySnapshotEndReceived_hcs_last sys se disk p).symm
  | notifyLocalPersistence p =>
    exact le_of_eq (notifyLocalPersistence_hcs_last sys p).symm

theorem runOps_cons (d : Bool) (op : Op) (ops : List Op) (sys : SysState) :
    runOps d (op :: ops) sys = runOps d ops (stepState d op sys) := rfl

theorem runOps_hps_mono (d : Bool) (ops : List Op) (sys : SysState) :
    sys.pdm.highPreparedSeqno.lastWriteSeqno ≤
      (runOps d ops sys).pdm.highPreparedSeqno.lastWriteSeqno := by
  induction ops generalizing sys with
  | nil => exact le_refl _
  | cons op rest ih =>
    rw [runOps_cons]
    exact le_trans (stepState_hps_mono d op sys) (ih _)

theorem runOps_hcs_mono (d : Bool) (ops : List Op) (sys : SysState) :
    sys.pdm.highCompletedSeqno.lastWriteSeqno ≤
      (runOps d ops sys).pdm.highCompletedSeqno.lastWriteSeqno := by
  induction ops generalizing sys with
  | nil => exact le_refl _
  | cons op rest ih =>
    rw [runOps_cons]
    exact le_trans (stepState_hcs_mono d op sys) (ih _)

/-- Claim C1: over every sequence of PDM operations (addSyncWrite,
completeSyncWrite, notifySnapshotEndReceived, notifyLocalPersistence), both
cursor seqnos - `highPreparedSeqno.lastWriteSeqno` and
`highCompletedSeqno.lastWriteSeqno` - are monotonically non-decreasing: no
operation ever leaves either cursor with a seqno smaller than its value in
any earlier state (in particular `completeSyncWrite` advances the HCS only
when ordered completion is enforced or the candidate's seqno exceeds the
current HCS, and an assignment that would move a cursor backwards traps as a
monotonicity violation instead of taking effect). -/
theorem pdm_cursors_monotone (d : Bool) (ops : List Op) (sys : SysState) :
    sys.pdm.highPreparedSeqno.lastWriteSeqno ≤
      (runOps d ops sys).pdm.highPreparedSeqno.lastWriteSeqno ∧
    sys.pdm.highCompletedSeqno.lastWriteSeqno ≤
      (runOps d ops sys).pdm.highCompletedSeqno.lastWriteSeqno :=
  ⟨runOps_hps_mono d ops sys, runOps_hcs_mono d ops sys⟩

/-! ## The ack-dispatch protocol -/

theorem ackInv_init : AckInv initState := by
  refine ⟨le_refl 0, List.chain'_nil, ?_, le_refl 0, ?_⟩ <;>
    intro a ha <;> simp [initState] at ha

theorem mem_of_getLast? {l : List Int} {a : Int} (h : l.getLast? = some a) :
    a ∈ l := by
  induction l with
  | nil => simp at h
  | cons x rest ih =>
    cases rest with
    | nil => simp_all
    | cons y t =>
      rw [List.getLast?_cons_cons] at h
      exact List.mem_cons_of_mem _ (ih h)

theorem chain'_append_singleton {l : List Int} {b : Int}
    (hc : List.Chain' (· < ·) l) (hb : ∀ a ∈ l, a < b) :
    List.Chain' (· < ·) (l ++ [b]) := by
  rw [List.chain'_append]
  refine ⟨hc, List.chain'_singleton b, ?_⟩
  intro x hx y hy
  simp at hy
  subst hy
  exact hb x (mem_of_getLast? hx)

/-- The store-then-send sequence at the end of a notify operation preserves
the ack invariant, given that the new PDM state's HPS did not go down. -/
theorem ackInv_store_send (sys : SysState) (newPdm : State)
    (hinv : AckInv sys)
    (hmono : sys.pdm.highPreparedSeqno.lastWriteSeqno ≤
      newPdm.highPreparedSeqno.lastWriteSeqno) :
    AckInv (sendSeqnoAck (storeSeqnoAck { sys with pdm := newPdm }
      sys.pdm.highPreparedSeqno.lastWriteSeqno
      newPdm.highPreparedSeqno.lastWriteSeqno)) := by
  obtain ⟨h0, hchain, hle, hlatch, hgap⟩ := hinv
  set h1 := newPdm.highPreparedSeqno.lastWriteSeqno with hh1
  set h0v := sys.pdm.highPreparedSeqno.lastWriteSeqno with hh0
  by_cases heq : h0v = h1
  · -- HPS did not change: the store is a no-op
    have hstore : storeSeqnoAck { sys with pdm := newPdm } h0v h1 =
        { sys with pdm := newPdm } := by
      simp [storeSeqnoAck, heq]
    rw [hstore]
    by_cases hz : sys.seqnoToAck = 0
    · have hsend : sendSeqnoAck { sys with pdm := newPdm } =
          { sys with pdm := newPdm, seqnoToAck := 0 } := by
        simp [sendSeqnoAck, hz]
      rw [hsend]
      refine ⟨le_trans h0 hmono, hchain, ?_, ?_, ?_⟩
      · intro a ha; exact le_trans (hle a ha) hmono
      · exact le_trans h0 hmono
      · intro a ha; exact Or.inl rfl
    · have hsend : sendSeqnoAck { sys with pdm := newPdm } =
          { sys with
              pdm := newPdm
              sentAcks := sys.sentAcks ++ [sys.seqnoToAck]
              seqnoToAck := 0 } := by
        simp [sendSeqnoAck, hz]
      rw [hsend]
      have hlt : ∀ a ∈ sys.sentAcks, a < sys.seqnoToAck := by
        intro a ha
        rcases hgap a ha with h | h
        · exact absurd h hz
        · exact h
      refine ⟨le_trans h0 hmono, chain'_append_singleton hchain hlt, ?_, ?_, ?_⟩
      · intro a ha
        rw [List.mem_append] at ha
        rcases ha with ha | ha
        · exact le_trans (hle a ha) hmono
        · simp at ha; subst ha; exact le_trans hlatch hmono
      · exact le_trans h0 hmono
      · intro a ha; exact Or.inl rfl
  · -- HPS strictly increased: latch h1 and transmit it
    have hlt01 : h0v < h1 := lt_of_le_of_ne hmono heq
    have hlatch1 : sys.seqnoToAck < h1 := lt_of_le_of_lt hlatch hlt01
    have hstore : storeSeqnoAck { sys with pdm := newPdm } h0v h1 =
        { sys with pdm := newPdm, seqnoToAck := h1 } := by
      simp [storeSeqnoAck, heq, hlatch1]
    rw [hstore]
    have h1pos : h1 ≠ 0 := by
      intro hc
      rw [hc] at hlt01
      exact absurd (lt_of_le_of_lt h0 hlt01) (lt_irrefl 0)
    have hsend : sendSeqnoAck { sys with pdm := newPdm, seqnoToAck := h1 } =
        { sys with
            pdm := newPdm
            sentAcks := sys.sentAcks ++ [h1]
            seqnoToAck := 0 } := by
      simp [sendSeqnoAck, h1pos]
    rw [hsend]
    have hlt : ∀ a ∈ sys.sentAcks, a < h1 :=
      fun a ha => lt_of_le_of_lt (hle a ha) hlt01
    refine ⟨le_trans h0 hmono, chain'_append_singleton hchain hlt, ?_, ?_, ?_⟩
    · intro a ha
      rw [List.mem_append] at ha
      rcases ha with ha | ha
      · exact le_trans (hle a ha) hmono
      · simp at ha; subst ha; exact le_refl _
    · exact le_trans h0 hmono
    · intro a ha; exact Or.inl rfl

theorem ackInv_step (d : Bool) (op : Op) (sys : SysState)
    (hinv : AckInv sys) : AckInv (stepState d op sys) := by
  obtain ⟨h0, hchain, hle, hlatch, hgap⟩ := hinv
  cases op with
  | addSyncWrite k q l t ow =>
    have hhps := addSyncWrite_hps_last d sys.pdm k q l t ow
    simp only [stepState, stepOp]
    exact ⟨by rw [hhps]; exact h0, hchain,
      by intro a ha; rw [hhps]; exact hle a ha,
      by rw [hhps]; exact hlatch, hgap⟩
  | completeSyncWrite k r ps disk =>
    have hhps := completeSyncWrite_hps_last sys.pdm k r ps disk
    simp only [stepState, stepOp]
    exact ⟨by rw [hhps]; exact h0, hchain,
      by intro a ha; rw [hhps]; exact hle a ha,
      by rw [hhps]; exact hlatch, hgap⟩
  | notifySnapshotEndReceived se disk p =>
    simp only [stepState, stepOp, notifySnapshotEndReceived]
    split
    · rename_i e heq
      have hmono := updateHighPreparedSeqno_hps_mono p
        { sys.pdm with
          receivedSnapshotEnds := sys.pdm.receivedSnapshotEnds ++
            [⟨se, if disk then CheckpointType.Disk else CheckpointType.Memory⟩] }
      exact ⟨le_trans h0 hmono, hchain,
        fun a ha => le_trans (hle a ha) hmono,
        le_trans hlatch hmono, hgap⟩
    · rename_i heq
      exact ackInv_store_send sys _ ⟨h0, hchain, hle, hlatch, hgap⟩
        (updateHighPreparedSeqno_hps_mono p _)
  | notifyLocalPersistence p =>
    simp only [stepState, stepOp, notifyLocalPersistence]
    split
    · rename_i e heq
      have hmono := updateHighPreparedSeqno_hps_mono p sys.pdm
      exact ⟨le_trans h0 hmono, hchain,
        fun a ha => le_trans (hle a ha) hmono,
        le_trans hlatch hmono, hgap⟩
    · rename_i heq
      exact ackInv_store_send sys _ ⟨h0, hchain, hle, hlatch, hgap⟩
        (updateHighPreparedSeqno_hps_mono p _)

theorem ackInv_runOps (d : Bool) (ops : List Op) (sys : SysState)
    (hinv : AckInv sys) : AckInv (runOps d ops sys) := by
  induction ops generalizing sys with
  | nil => exact hinv
  | cons op rest ih =>
    rw [runOps_cons]
    exact ih _ (ackInv_step d op sys hinv)

/-- Claim C6: along every operation sequence from a fresh PDM, every seqno
passed to `vb.sendSeqnoAck` is at most `highPreparedSeqno.lastWriteSeqno` (the
ack is latched and transmitted within the operation that moved the HPS, and
the HPS does not change between latch and send, so the bound at the end of
each run prefix is the bound at the moment of latching), and the transmitted
acks are strictly increasing. -/
theorem pdm_ack_protocol (d : Bool) (ops : List Op) :
    List.Chain' (· < ·) (runOps d ops initState).sentAcks ∧
    ∀ a ∈ (runOps d ops initState).sentAcks,
      a ≤ (runOps d ops initState).pdm.highPreparedSeqno.lastWriteSeqno := by
  have h := ackInv_runOps d ops initState ackInv_init
  exact ⟨h.2.1, h.2.2.1⟩

/-- Witness for C6: the spec's scenario S3 transmits acks `[5, 12]`; the
theorem instantiated there bounds the ack 12 by the final HPS. -/
theorem pdm_ack_protocol_witness :
    (runOps false
      [Op.addSyncWrite 1 5 Level.Majority false none,
       Op.addSyncWrite 2 8 Level.PersistToMajority false none,
       Op.addSyncWrite 3 12 Level.Majority false none,
       Op.notifySnapshotEndReceived 12 false 0,
       Op.notifyLocalPersistence 12] initState).sentAcks = [5, 12] ∧
    (12 : Int) ≤ (runOps false
      [Op.addSyncWrite 1 5 Level.Majority false none,
       Op.addSyncWrite 2 8 Level.PersistToMajority false none,
       Op.addSyncWrite 3 12 Level.Majority false none,
       Op.notifySnapshotEndReceived 12 false 0,
       Op.notifyLocalPersistence 12] initState).pdm.highPreparedSeqno.lastWriteSeqno :=
  ⟨by decide,
   (pdm_ack_protocol false
      [Op.addSyncWrite 1 5 Level.Majority false none,
       Op.addSyncWrite 2 8 Level.PersistToMajority false none,
       Op.addSyncWrite 3 12 Level.Majority false none,
       Op.notifySnapshotEndReceived 12 false 0,
       Op.notifyLocalPersistence 12]).2 12 (by decide)⟩

/-! ## Characterising the HPS advance within one snapshot -/

theorem levelLe_top (l : Level) : levelLe l Level.PersistToMajority = true := by
  cases l <;> rfl

theorem levelLe_none {l : Level} (h : l ≠ Level.None) :
    levelLe l Level.None = false := by
  cases l <;> first | rfl | exact absurd rfl h

theorem advanceHpsLoop_stuck (e : Int) (m : Level) (pos : Position)
    (suffix : List SyncWrite)
    (h : ∀ w, suffix.head? = some w → hpsPred e m w = false) :
    advanceHpsLoop e m pos suffix = (pos, suffix, false) := by
  cases suffix with
  | nil => rfl
  | cons w rest => simp [advanceHpsLoop, h w rfl]

theorem advanceHpsLoop_split (e : Int) (m : Level) :
    ∀ (pre rest : List SyncWrite) (pos : Position),
      (∀ w ∈ pre, hpsPred e m w = true) →
      (∀ w, rest.head? = some w → hpsPred e m w = false) →
      List.Chain' (· ≤ ·) (pos.lastWriteSeqno :: pre.map SyncWrite.bySeqno) →
      ∃ pos', advanceHpsLoop e m pos (pre ++ rest) = (pos', rest, false) ∧
        pos.lastWriteSeqno ≤ pos'.lastWriteSeqno ∧
        (∀ w ∈ pre, w.bySeqno ≤ pos'.lastWriteSeqno) ∧
        (pos' = pos ∨ ∃ w ∈ pre, pos' = ⟨some w.id, w.bySeqno⟩) := by
  intro pre
  induction pre with
  | nil =>
    intro rest pos hpre hrest hchain
    refine ⟨pos, ?_, le_refl _, ?_, Or.inl rfl⟩
    · simpa using advanceHpsLoop_stuck e m pos rest hrest
    · intro w hw; simp at hw
  | cons w t ih =>
    intro rest pos hpre hrest hchain
    have hw : hpsPred e m w = true := hpre w (List.mem_cons_self w t)
    have hchain0 : List.Chain' (· ≤ ·)
        (pos.lastWriteSeqno :: w.bySeqno :: t.map SyncWrite.bySeqno) := by
      simpa using hchain
    have hle : pos.lastWriteSeqno ≤ w.bySeqno := (List.chain'_cons.mp hchain0).1
    have hchain' : List.Chain' (· ≤ ·) (w.bySeqno :: t.map SyncWrite.bySeqno) :=
      (List.chain'_cons.mp hchain0).2
    obtain ⟨pos', heq, hmono, hall, hdisj⟩ :=
      ih rest ⟨some w.id, w.bySeqno⟩ (fun x hx => hpre x (List.mem_cons_of_mem _ hx))
        hrest hchain'
    refine ⟨pos', ?_, le_trans hle hmono, ?_, ?_⟩
    · simpa [advanceHpsLoop, hw, not_lt.mpr hle] using heq
    · intro x hx
      rcases List.mem_cons.mp hx with hx | hx
      · subst hx; exact hmono
      · exact hall x hx
    · rcases hdisj with h | ⟨x, hx, hx'⟩
      · exact Or.inr ⟨w, List.mem_cons_self w t, h⟩
      · exact Or.inr ⟨x, List.mem_cons_of_mem _ hx, hx'⟩

theorem head?_dropWhile_false (p : SyncWrite → Bool) :
    ∀ (l : List SyncWrite) (w : SyncWrite),
      (List.dropWhile p l).head? = some w → p w = false := by
  intro l
  induction l with
  | nil => intro w h; simp at h
  | cons a t ih =>
    intro w h
    rw [List.dropWhile_cons] at h
    by_cases hp : p a
    · simp only [hp, if_true] at h
      exact ih w h
    · simp only [hp, if_false] at h
      simp at h
      exact h ▸ Bool.of_not_eq_true hp

theorem head?_mem {l : List SyncWrite} {w : SyncWrite}
    (h : l.head? = some w) : w ∈ l := by
  cases l with
  | nil => simp at h
  | cons a t => simp at h; exact h ▸ List.mem_cons_self a t

theorem processSnapshots_unpersisted_disk
    (persisted snapEnd : Int) (restQ : List SnapshotEndInfo) (pos : Position)
    (suffix : List SyncWrite)
    (hp : persisted < snapEnd)
    (hl : ∀ w, suffix.head? = some w → w.level ≠ Level.None) :
    processSnapshots persisted
        (⟨snapEnd, CheckpointType.Disk⟩ :: restQ) pos suffix =
      (pos, ⟨snapEnd, CheckpointType.Disk⟩ :: restQ, none) := by
  have hfp : snapFullyPersisted persisted ⟨snapEnd, CheckpointType.Disk⟩ = false := by
    simp only [snapFullyPersisted, decide_eq_false_iff_not, not_le]
    exact hp
  have hdisk : snapIsDisk ⟨snapEnd, CheckpointType.Disk⟩ = true := rfl
  have hml : snapMaxLevel persisted ⟨snapEnd, CheckpointType.Disk⟩ = Level.None := by
    simp [snapMaxLevel, hfp, hdisk]
  have hstuck : advanceHpsLoop snapEnd Level.None pos suffix = (pos, suffix, false) :=
    advanceHpsLoop_stuck _ _ _ _ (by
      intro w hw
      simp [hpsPred, levelLe_none (hl w hw)])
  simp only [processSnapshots, hml]
  rw [hstuck]
  simp [snapBlocked, hdisk, hfp]

/-- Claim C3: when the snapshot at the front of the queue is a disk snapshot
whose end seqno is not yet persisted, `updateHighPreparedSeqno` advances over
no prepare at all (given that, as on the replica side, no tracked prepare has
level None): the whole state - HPS, queue and all - is returned unchanged,
and processing stops at that snapshot. -/
theorem hps_unpersisted_disk_snapshot_no_advance
    (s : State) (snapEnd persisted : Int) (restQ : List SnapshotEndInfo)
    (hq : s.receivedSnapshotEnds = ⟨snapEnd, CheckpointType.Disk⟩ :: restQ)
    (hp : persisted < snapEnd)
    (hl : ∀ w ∈ s.trackedWrites, w.level ≠ Level.None) :
    updateHighPreparedSeqno persisted s = (s, none) := by
  have hproc := processSnapshots_unpersisted_disk persisted snapEnd restQ
    s.highPreparedSeqno (iterSuffix s.trackedWrites s.highPreparedSeqno.it) hp
    (fun w hw => hl w (iterSuffix_subset (head?_mem hw)))
  simp only [updateHighPreparedSeqno, hq, hproc]
  rw [← hq]
  simp

/-- Witness for C3: the spec's scenario S4 before persistence - a disk
snapshot ending at 20 with only a PersistToMajority prepare at 15 tracked and
`persistedSeqno = 10` leaves the state untouched. -/
theorem hps_unpersisted_disk_snapshot_no_advance_witness :
    updateHighPreparedSeqno 10
      ⟨[⟨0, 1, 15, Level.PersistToMajority, false⟩], 1, ⟨none, 0⟩, ⟨none, 0⟩,
        [⟨20, CheckpointType.Disk⟩], 1, 0, 0⟩ =
      (⟨[⟨0, 1, 15, Level.PersistToMajority, false⟩], 1, ⟨none, 0⟩, ⟨none, 0⟩,
        [⟨20, CheckpointType.Disk⟩], 1, 0, 0⟩, none) :=
  hps_unpersisted_disk_snapshot_no_advance _ 20 10 [] rfl (by decide)
    (by decide)

theorem processSnapshots_persisted_disk
    (persisted snapEnd : Int) (pos : Position) (suffix : List SyncWrite)
    (hp : snapEnd ≤ persisted)
    (h0 : pos.lastWriteSeqno ≤ snapEnd)
    (hchain : List.Chain' (· ≤ ·)
      (pos.lastWriteSeqno :: suffix.map SyncWrite.bySeqno)) :
    ∃ it1, processSnapshots persisted [⟨snapEnd, CheckpointType.Disk⟩] pos suffix =
      (⟨it1, snapEnd⟩, [], none) := by
  have hfp : snapFullyPersisted persisted ⟨snapEnd, CheckpointType.Disk⟩ = true := by
    simp only [snapFullyPersisted, decide_eq_true_eq]
    exact hp
  have hdisk : snapIsDisk ⟨snapEnd, CheckpointType.Disk⟩ = true := rfl
  have hml : snapMaxLevel persisted ⟨snapEnd, CheckpointType.Disk⟩ =
      Level.PersistToMajority := by
    simp [snapMaxLevel, hfp]
  set p := hpsPred snapEnd Level.PersistToMajority with hpdef
  have hchainpre : List.Chain' (· ≤ ·)
      (pos.lastWriteSeqno :: (suffix.takeWhile p).map SyncWrite.bySeqno) := by
    refine hchain.prefix ?_
    exact List.cons_prefix_cons.mpr ⟨rfl, (List.takeWhile_prefix p).map _⟩
  obtain ⟨pos', heq, hmono, hall, hdisj⟩ :=
    advanceHpsLoop_split snapEnd Level.PersistToMajority
      (suffix.takeWhile p) (suffix.dropWhile p) pos
      (fun w hw => List.mem_takeWhile_imp hw)
      (fun w hw => head?_dropWhile_false p suffix w hw) hchainpre
  rw [List.takeWhile_append_dropWhile] at heq
  have hple : pos'.lastWriteSeqno ≤ snapEnd := by
    rcases hdisj with h | ⟨w, hw, h⟩
    · rw [h]; exact h0
    · have hwp : p w = true := List.mem_takeWhile_imp hw
      rw [hpdef] at hwp
      simp only [hpsPred, Bool.and_eq_true, decide_eq_true_eq] at hwp
      rw [h]
      exact hwp.1
  have hblocked : snapBlocked ⟨snapEnd, CheckpointType.Disk⟩ persisted
      (suffix.dropWhile p) = false := by
    simp only [snapBlocked, hdisk, hfp, Bool.not_true, Bool.and_false,
      Bool.false_or]
    cases hh : (suffix.dropWhile p).head? with
    | none => rfl
    | some w =>
      have hwf := head?_dropWhile_false p suffix w hh
      rw [hpdef] at hwf
      simp only [hpsPred, levelLe_top, Bool.and_true] at hwf
      simp [hwf]
  refine ⟨pos'.it, ?_⟩
  simp only [processSnapshots, hml]
  rw [heq]
  simp only [hblocked, hdisk, hfp]
  simp [processSnapshots, not_lt.mpr hple]

/-- Claim C4: when the queued snapshot is a disk snapshot whose end seqno is
fully persisted, `updateHighPreparedSeqno` sets `HPS.lastWriteSeqno` to the
snapshot end seqno (whether or not any tracked prepare exists at that seqno -
the HPS iterator may remain behind) and consumes the queued snapshot end. -/
theorem hps_persisted_disk_snapshot_acks_snap_end
    (s : State) (snapEnd persisted : Int)
    (hq : s.receivedSnapshotEnds = [⟨snapEnd, CheckpointType.Disk⟩])
    (hp : snapEnd ≤ persisted)
    (h0 : s.highPreparedSeqno.lastWriteSeqno ≤ snapEnd)
    (hchain : List.Chain' (· ≤ ·) (s.highPreparedSeqno.lastWriteSeqno ::
      (iterSuffix s.trackedWrites s.highPreparedSeqno.it).map SyncWrite.bySeqno)) :
    ∃ s', updateHighPreparedSeqno persisted s = (s', none) ∧
      s'.highPreparedSeqno.lastWriteSeqno = snapEnd ∧
      s'.receivedSnapshotEnds = [] := by
  obtain ⟨it1, hproc⟩ := processSnapshots_persisted_disk persisted snapEnd
    s.highPreparedSeqno (iterSuffix s.trackedWrites s.highPreparedSeqno.it)
    hp h0 hchain
  simp only [updateHighPreparedSeqno, hq, hproc]
  by_cases hne : snapEnd = s.highPreparedSeqno.lastWriteSeqno
  · simp [← hne]
  · have hlt : s.highPreparedSeqno.lastWriteSeqno < snapEnd :=
      lt_of_le_of_ne h0 (fun hc => hne hc.symm)
    simp only [ne_eq, hne, not_false_iff, if_true, hlt, if_pos]
    refine ⟨_, rfl, ?_, ?_⟩
    · rw [checkForAndRemovePrepares_hps_last]
    · rw [checkForAndRemovePrepares_queue]

/-- Witness for C4: scenario S4 after persistence - disk snapshot ending at
20, single PersistToMajority prepare at 15, `persistedSeqno = 20`: the HPS
seqno becomes 20 although no prepare exists at seqno 20 (the iterator stays
behind on the prepare at 15, id 0). -/
theorem hps_persisted_disk_snapshot_acks_snap_end_witness :
    (∃ s', updateHighPreparedSeqno 20
        ⟨[⟨0, 1, 15, Level.PersistToMajority, false⟩], 1, ⟨none, 0⟩, ⟨none, 0⟩,
          [⟨20, CheckpointType.Disk⟩], 1, 0, 0⟩ = (s', none) ∧
      s'.highPreparedSeqno.lastWriteSeqno = 20 ∧
      s'.receivedSnapshotEnds = []) ∧
    (updateHighPreparedSeqno 20
        ⟨[⟨0, 1, 15, Level.PersistToMajority, false⟩], 1, ⟨none, 0⟩, ⟨none, 0⟩,
          [⟨20, CheckpointType.Disk⟩], 1, 0, 0⟩).1.highPreparedSeqno.it = some 0 :=
  ⟨hps_persisted_disk_snapshot_acks_snap_end _ 20 20 rfl (by decide) (by decide)
      (by norm_num [iterSuffix, List.chain'_cons]),
   by decide⟩

/-- Claim C2: for a received but not fully persisted memory snapshot at the
front of the queue, the HPS advances over the consecutive eligible prepares
(level Majority or MajorityAndPersistOnMaster, within the snapshot) and stops
strictly before the first PersistToMajority prepare of the snapshot, which
also blocks the snapshot end from being consumed. -/
theorem hps_memory_snapshot_stops_before_persist_fence
    (s : State) (snapEnd persisted : Int) (restQ : List SnapshotEndInfo)
    (eligible : List SyncWrite) (b : SyncWrite) (tl : List SyncWrite)
    (hq : s.receivedSnapshotEnds = ⟨snapEnd, CheckpointType.Memory⟩ :: restQ)
    (hp : persisted < snapEnd)
    (hs : iterSuffix s.trackedWrites s.highPreparedSeqno.it = eligible ++ b :: tl)
    (he : ∀ w ∈ eligible, w.bySeqno ≤ snapEnd ∧
      (w.level = Level.Majority ∨ w.level = Level.MajorityAndPersistOnMaster))
    (hchain : List.Chain' (· ≤ ·)
      (s.highPreparedSeqno.lastWriteSeqno :: eligible.map SyncWrite.bySeqno))
    (hb : b.level = Level.PersistToMajority) (hbe : b.bySeqno ≤ snapEnd)
    (hlt0 : s.highPreparedSeqno.lastWriteSeqno < b.bySeqno)
    (hlt : ∀ w ∈ eligible, w.bySeqno < b.bySeqno) :
    ∃ s', updateHighPreparedSeqno persisted s = (s', none) ∧
      (∀ w ∈ eligible, w.bySeqno ≤ s'.highPreparedSeqno.lastWriteSeqno) ∧
      s'.highPreparedSeqno.lastWriteSeqno < b.bySeqno ∧
      (s'.highPreparedSeqno.lastWriteSeqno = s.highPreparedSeqno.lastWriteSeqno ∨
        ∃ w ∈ eligible, s'.highPreparedSeqno.lastWriteSeqno = w.bySeqno) ∧
      s'.receivedSnapshotEnds = s.receivedSnapshotEnds := by
  have hfp : snapFullyPersisted persisted ⟨snapEnd, CheckpointType.Memory⟩ = false := by
    simp only [snapFullyPersisted, decide_eq_false_iff_not, not_le]
    exact hp
  have hdisk : snapIsDisk ⟨snapEnd, CheckpointType.Memory⟩ = false := rfl
  have hml : snapMaxLevel persisted ⟨snapEnd, CheckpointType.Memory⟩ =
      Level.MajorityAndPersistOnMaster := by
    simp [snapMaxLevel, hfp, hdisk]
  obtain ⟨pos', heq, hmono, hall, hdisj⟩ :=
    advanceHpsLoop_split snapEnd Level.MajorityAndPersistOnMaster
      eligible (b :: tl) s.highPreparedSeqno
      (by
        intro w hw
        obtain ⟨h1, h2⟩ := he w hw
        rcases h2 with h2 | h2 <;>
          simp [hpsPred, h1, h2, levelLe, Level.toNat])
      (by
        intro w hw
        simp only [List.head?_cons, Option.some_inj] at hw
        subst hw
        simp [hpsPred, hb, levelLe, Level.toNat])
      hchain
  rw [← hs] at heq
  have hps'lt : pos'.lastWriteSeqno < b.bySeqno := by
    rcases hdisj with h | ⟨w, hw, h⟩
    · rw [h]; exact hlt0
    · rw [h]; exact hlt w hw
  have hblocked : snapBlocked ⟨snapEnd, CheckpointType.Memory⟩ persisted
      (b :: tl) = true := by
    simp [snapBlocked, hbe]
  have hproc : processSnapshots persisted
      (⟨snapEnd, CheckpointType.Memory⟩ :: restQ) s.highPreparedSeqno
      (iterSuffix s.trackedWrites s.highPreparedSeqno.it) =
      (pos', ⟨snapEnd, CheckpointType.Memory⟩ :: restQ, none) := by
    simp only [processSnapshots, hml]
    rw [heq]
    simp [hblocked, hdisk]
  simp only [updateHighPreparedSeqno, hq, hproc]
  by_cases hne : pos'.lastWriteSeqno = s.highPreparedSeqno.lastWriteSeqno
  · rw [← hq]
    simp only [hne, ne_eq, not_true_eq_false, if_false]
    exact ⟨_, rfl, fun w hw => hne ▸ hall w hw, hne ▸ hps'lt, Or.inl hne, rfl⟩
  · have hltp : s.highPreparedSeqno.lastWriteSeqno < pos'.lastWriteSeqno :=
      lt_of_le_of_ne hmono (fun hc => hne hc.symm)
    rw [← hq]
    simp only [ne_eq, hne, not_false_iff, if_true, hltp, if_pos]
    refine ⟨_, rfl, ?_, ?_, ?_, ?_⟩
    · intro w hw
      rw [checkForAndRemovePrepares_hps_last]
      exact hall w hw
    · rw [checkForAndRemovePrepares_hps_last]
      exact hps'lt
    · rw [checkForAndRemovePrepares_hps_last]
      rcases hdisj with h | ⟨w, hw, h⟩
      · exact Or.inl (by rw [h])
      · exact Or.inr ⟨w, hw, by rw [h]⟩
    · rw [checkForAndRemovePrepares_queue]

/-- Witness for C2: scenario S3 - prepares at 5 (Majority),
8 (PersistToMajority), 12 (Majority), memory snapshot end 12,
`persistedSeqno = 0`: the HPS lands on exactly 5 and the snapshot end stays
queued. -/
theorem hps_memory_snapshot_stops_before_persist_fence_witness :
    ∃ s', updateHighPreparedSeqno 0
        ⟨[⟨0, 1, 5, Level.Majority, false⟩,
          ⟨1, 2, 8, Level.PersistToMajority, false⟩,
          ⟨2, 3, 12, Level.Majority, false⟩], 3, ⟨none, 0⟩, ⟨none, 0⟩,
          [⟨12, CheckpointType.Memory⟩], 3, 0, 0⟩ = (s', none) ∧
      (5 : Int) ≤ s'.highPreparedSeqno.lastWriteSeqno ∧
      s'.highPreparedSeqno.lastWriteSeqno < 8 ∧
      s'.receivedSnapshotEnds = [⟨12, CheckpointType.Memory⟩] := by
  obtain ⟨s', h1, h2, h3, h4, h5⟩ :=
    hps_memory_snapshot_stops_before_persist_fence
      ⟨[⟨0, 1, 5, Level.Majority, false⟩,
        ⟨1, 2, 8, Level.PersistToMajority, false⟩,
        ⟨2, 3, 12, Level.Majority, false⟩], 3, ⟨none, 0⟩, ⟨none, 0⟩,
        [⟨12, CheckpointType.Memory⟩], 3, 0, 0⟩
      12 0 [] [⟨0, 1, 5, Level.Majority, false⟩]
      ⟨1, 2, 8, Level.PersistToMajority, false⟩
      [⟨2, 3, 12, Level.Majority, false⟩]
      rfl (by decide) rfl (by decide)
      (by norm_num [List.chain'_cons]) rfl (by decide) (by decide) (by decide)
  exact ⟨s', h1, h2 ⟨0, 1, 5, Level.Majority, false⟩ (by decide), h3, h5⟩

/-- Claim C5, amended: `checkForAndRemovePrepares` erases from the head of
`trackedWrites` exactly the maximal prefix of writes with
`bySeqno <= min(HCS.lastWriteSeqno, HPS.lastWriteSeqno)` - regardless of the
`completed` flag; a not-yet-completed write inside that prefix is removed
too (the loop at `passive_durability_monitor.cc:552` has no
`isCompleted()` test). -/
theorem prune_erases_fence_prefix_regardless_of_completion (s : State) :
    (checkForAndRemovePrepares s).trackedWrites =
      s.trackedWrites.dropWhile
        (fun w => decide (w.bySeqno ≤
          min s.highCompletedSeqno.lastWriteSeqno
              s.highPreparedSeqno.lastWriteSeqno)) :=
  checkForAndRemovePrepares_trackedWrites s

/-- Counterexample to claim C5 as stated: in a disk snapshot, prepares k1@10
and k2@11 are tracked, k2 is committed out of order (HCS = 11, k1 still not
completed), and then the snapshot end 11 arrives fully persisted.  The HPS
moves to 11 and the prune that follows removes the *uncompleted* write at
seqno 10 together with the completed one - pruning is not restricted to
`completed == true` writes. -/
theorem prune_removes_uncompleted_prepare :
    ((runOps false
        [Op.addSyncWrite 1 10 Level.Majority false none,
         Op.addSyncWrite 2 11 Level.Majority false none,
         Op.completeSyncWrite 2 Resolution.Commit (some 11) true]
        initState).pdm.trackedWrites.map (fun w => (w.bySeqno, w.completed)) =
      [(10, false), (11, true)]) ∧
    (runOps false
        [Op.addSyncWrite 1 10 Level.Majority false none,
         Op.addSyncWrite 2 11 Level.Majority false none,
         Op.completeSyncWrite 2 Resolution.Commit (some 11) true,
         Op.notifySnapshotEndReceived 11 true 11]
        initState).pdm.trackedWrites = [] := by
  constructor <;> decide

/-! ## The completeSyncWrite error contract -/

theorem completeFinish_err (s : State) (n : SyncWrite) (r : Resolution) :
    (completeFinish s n r).2 = none ∨
      (completeFinish s n r).2 = some Err.expectsFailed := by
  simp only [completeFinish]
  split
  · right; rfl
  · split <;> left <;> rfl

theorem completeFinish_completed_false (s : State) (n : SyncWrite)
    (r : Resolution) (h : (completeFinish s n r).2 = none) :
    n.completed = false := by
  by_cases hc : n.completed
  · simp [completeFinish, hc] at h
  · exact Bool.of_not_eq_true hc

theorem mem_dropWhile_mem {p : SyncWrite → Bool} {l : List SyncWrite}
    {w : SyncWrite} (h : w ∈ l.dropWhile p) : w ∈ l := by
  induction l with
  | nil => simp at h
  | cons a t ih =>
    rw [List.dropWhile_cons] at h
    by_cases hp : p a
    · simp only [hp, if_true] at h
      exact List.mem_cons_of_mem _ (ih h)
    · simpa only [hp, if_false] using h

theorem completeFinish_marks (s : State) (n : SyncWrite) (r : Resolution)
    (h : (completeFinish s n r).2 = none) :
    ∀ w ∈ (completeFinish s n r).1.trackedWrites,
      w.id = n.id → w.completed = true := by
  have hc : n.completed = false := completeFinish_completed_false s n r h
  intro w hw hid
  simp only [completeFinish, hc, Bool.false_eq_true, if_false] at hw
  have hw' : w ∈ (checkForAndRemovePrepares { s with trackedWrites := List.map (fun x => if x.id = n.id then { x with completed := true } else x) s.trackedWrites }).trackedWrites := by
    rcases r with _ | _ | _ <;> exact hw
  rw [checkForAndRemovePrepares_trackedWrites] at hw'
  have hw2 := mem_dropWhile_mem hw'
  simp only [List.mem_map] at hw2
  obtain ⟨x, hx, hfx⟩ := hw2
  by_cases hxid : x.id = n.id
  · rw [← hfx]
    simp [hxid]
  · rw [← hfx] at hid
    simp [hxid] at hid

theorem seqnoMismatch_iff (c : SyncWrite) (o : Option Int) :
    seqnoMismatch c o = true ↔ ∃ p, o = some p ∧ c.bySeqno ≠ p := by
  cases o <;> simp [seqnoMismatch]

/-- Claim C7: `completeSyncWrite(key, res, prepareSeqno?)` throws its
`std::logic_error` exactly when trackedWrites is empty, or the candidate
(`next(HCS.it)` under ordered completion, else the first key-matching write
scanned from `begin()`) is `end()`, or the candidate's key differs from the
given key, or a supplied `prepareSeqno` differs from the candidate's
`bySeqno`; and when the call does not fail at all, the candidate is marked
completed. -/
theorem completeSyncWrite_logic_error_iff (s : State) (key : Nat)
    (res : Resolution) (ps : Option Int) (disk : Bool) :
    ((completeSyncWrite s key res ps disk).2 = some Err.logicError ↔
      (s.trackedWrites = [] ∨ candidateOf s key disk = none ∨
       ∃ c, candidateOf s key disk = some c ∧
         (c.key ≠ key ∨ ∃ p, ps = some p ∧ c.bySeqno ≠ p))) ∧
    ((completeSyncWrite s key res ps disk).2 = none →
      ∃ c, candidateOf s key disk = some c ∧ c.completed = false ∧
        ∀ w ∈ (completeSyncWrite s key res ps disk).1.trackedWrites,
          w.id = c.id → w.completed = true) := by
  by_cases hemp : s.trackedWrites.isEmpty
  · have hres : (completeSyncWrite s key res ps disk).2 = some Err.logicError := by
      simp [completeSyncWrite, hemp]
    refine ⟨iff_of_true hres (Or.inl (List.isEmpty_iff.mp hemp)), ?_⟩
    intro hnone
    rw [hres] at hnone
    exact Option.noConfusion hnone
  · cases hcand : candidateOf s key disk with
    | none =>
      have hres : (completeSyncWrite s key res ps disk).2 = some Err.logicError := by
        simp [completeSyncWrite, hemp, hcand]
      refine ⟨iff_of_true hres (Or.inr (Or.inl rfl)), ?_⟩
      intro hnone
      rw [hres] at hnone
      exact Option.noConfusion hnone
    | some next =>
      by_cases hkey : next.key = key
      · by_cases hsm : seqnoMismatch next ps = true
        · have hres : (completeSyncWrite s key res ps disk).2 = some Err.logicError := by
            simp [completeSyncWrite, hemp, hcand, hkey, hsm]
          refine ⟨iff_of_true hres (Or.inr (Or.inr ⟨next, rfl,
            Or.inr ((seqnoMismatch_iff next ps).mp hsm)⟩)), ?_⟩
          intro hnone
          rw [hres] at hnone
          exact Option.noConfusion hnone
        · have hred : completeSyncWrite s key res ps disk =
              (if !disk || decide (next.bySeqno > s.highCompletedSeqno.lastWriteSeqno) then
                (if next.bySeqno < s.highCompletedSeqno.lastWriteSeqno then
                  (s, some Err.monotonicViolation)
                 else completeFinish
                   { s with highCompletedSeqno := ⟨some next.id, next.bySeqno⟩ }
                   next res)
              else completeFinish s next res) := by
            simp [completeSyncWrite, hemp, hcand, hkey, hsm]
          have hrhs : ¬ (s.trackedWrites = [] ∨
              (some next : Option SyncWrite) = none ∨
              ∃ c, (some next : Option SyncWrite) = some c ∧
                (c.key ≠ key ∨ ∃ p, ps = some p ∧ c.bySeqno ≠ p)) := by
            intro hr
            rcases hr with hr | hr | ⟨c, hc, hc'⟩
            · rw [List.isEmpty_iff] at hemp; exact hemp hr
            · exact Option.noConfusion hr
            · injection hc with hc
              subst hc
              rcases hc' with hc' | hc'
              · exact hc' hkey
              · exact hsm ((seqnoMismatch_iff next ps).mpr hc')
          have hnotLE : (completeSyncWrite s key res ps disk).2 ≠ some Err.logicError := by
            rw [hred]
            split
            · split
              · intro hc; exact Err.noConfusion (Option.some.inj hc)
              · rcases completeFinish_err
                  { s with highCompletedSeqno := ⟨some next.id, next.bySeqno⟩ }
                  next res with he | he <;> rw [he]
                · intro hc; exact Option.noConfusion hc
                · intro hc; exact Err.noConfusion (Option.some.inj hc)
            · rcases completeFinish_err s next res with he | he <;> rw [he]
              · intro hc; exact Option.noConfusion hc
              · intro hc; exact Err.noConfusion (Option.some.inj hc)
          refine ⟨iff_of_false hnotLE hrhs, ?_⟩
          intro hnone
          refine ⟨next, rfl, ?_⟩
          rw [hred] at hnone ⊢
          revert hnone
          split
          · split
            · intro hc; exact Option.noConfusion hc
            · intro hnone
              exact ⟨completeFinish_completed_false _ next res hnone,
                completeFinish_marks _ next res hnone⟩
          · intro hnone
            exact ⟨completeFinish_completed_false _ next res hnone,
              completeFinish_marks _ next res hnone⟩
      · have hres : (completeSyncWrite s key res ps disk).2 = some Err.logicError := by
          simp [completeSyncWrite, hemp, hcand, hkey]
        refine ⟨iff_of_true hres (Or.inr (Or.inr ⟨next, rfl, Or.inl hkey⟩)), ?_⟩
        intro hnone
        rw [hres] at hnone
        exact Option.noConfusion hnone

/-- Witness for C7: on an empty PDM every completion throws the logic error,
and on a single tracked Majority prepare k=7@10 an ordered Commit with
matching prepareSeqno succeeds and marks the candidate completed. -/
theorem completeSyncWrite_logic_error_iff_witness :
    (completeSyncWrite ⟨[], 0, ⟨none, 0⟩, ⟨none, 0⟩, [], 0, 0, 0⟩ 7
        Resolution.Commit none false).2 = some Err.logicError ∧
    ∃ c, candidateOf ⟨[⟨0, 7, 10, Level.Majority, false⟩], 1, ⟨none, 0⟩,
          ⟨none, 0⟩, [], 1, 0, 0⟩ 7 false = some c ∧ c.completed = false ∧
      ∀ w ∈ (completeSyncWrite ⟨[⟨0, 7, 10, Level.Majority, false⟩], 1,
          ⟨none, 0⟩, ⟨none, 0⟩, [], 1, 0, 0⟩ 7 Resolution.Commit (some 10)
          false).1.trackedWrites, w.id = c.id → w.completed = true :=
  ⟨(completeSyncWrite_logic_error_iff ⟨[], 0, ⟨none, 0⟩, ⟨none, 0⟩, [], 0, 0, 0⟩
      7 Resolution.Commit none false).1.mpr (Or.inl rfl),
   (completeSyncWrite_logic_error_iff ⟨[⟨0, 7, 10, Level.Majority, false⟩], 1,
      ⟨none, 0⟩, ⟨none, 0⟩, [], 1, 0, 0⟩ 7 Resolution.Commit (some 10)
      false).2 (by decide)⟩

/-! ## The addSyncWrite contract -/

theorem owErase_no_match (key : Nat) (p : Int) :
    ∀ (tw : List SyncWrite), (∀ w ∈ tw, w.key ≠ key) →
      owErase key p tw = (tw, none, none) := by
  intro tw
  induction tw with
  | nil => intro h; rfl
  | cons w rest ih =>
    intro h
    have hw : w.key ≠ key := h w (List.mem_cons_self w rest)
    simp only [owErase, hw, if_false]
    rw [ih (fun x hx => h x (List.mem_cons_of_mem _ hx))]

/-- Claim C8: `addSyncWrite` (release build) fails with the invalid-argument
error on `Level::None` and on a default timeout, in both cases returning the
state unchanged; otherwise - provided the `Expects` contract of the optional
overwrite path holds - it appends the new write at the tail, increments
`totalAccepted`, and moves neither cursor seqno. -/
theorem addSyncWrite_contract (s : State) (key : Nat) (seq : Int)
    (lvl : Level) (tdef : Bool) (ow : Option Int) :
    (lvl = Level.None →
      addSyncWrite false s key seq lvl tdef ow = (s, some Err.invalidArgument)) ∧
    (lvl ≠ Level.None → tdef = true →
      addSyncWrite false s key seq lvl tdef ow = (s, some Err.invalidArgument)) ∧
    (lvl ≠ Level.None → tdef = false →
      (∀ p, ow = some p → (owErase key p s.trackedWrites).2.2 = none) →
      ∃ s1, addSyncWrite false s key seq lvl tdef ow = (s1, none) ∧
        (∃ pre, s1.trackedWrites = pre ++ [⟨s.nextId, key, seq, lvl, false⟩]) ∧
        s1.totalAccepted = s.totalAccepted + 1 ∧
        s1.highPreparedSeqno.lastWriteSeqno = s.highPreparedSeqno.lastWriteSeqno ∧
        s1.highCompletedSeqno.lastWriteSeqno = s.highCompletedSeqno.lastWriteSeqno) := by
  refine ⟨?_, ?_, ?_⟩
  · intro h
    simp [addSyncWrite, h]
  · intro h1 h2
    simp [addSyncWrite, h1, h2]
  · intro h1 h2 h3
    cases ow with
    | none =>
      refine ⟨{ s with trackedWrites := s.trackedWrites ++ [⟨s.nextId, key, seq, lvl, false⟩], nextId := s.nextId + 1, totalAccepted := s.totalAccepted + 1 }, ?_, ⟨s.trackedWrites, rfl⟩, rfl, rfl, rfl⟩
      simp [addSyncWrite, h1, h2, addAppend]
    | some p =>
      have he := h3 p rfl
      simp only [addSyncWrite, h1, if_false, h2, Bool.false_eq_true, he,
        addAppend, Bool.false_and]
      exact ⟨_, rfl, ⟨(owErase key p s.trackedWrites).1, rfl⟩, rfl,
        resetIfErased_lastWriteSeqno _ _, resetIfErased_lastWriteSeqno _ _⟩

/-- Witness for C8: the three contract branches at concrete inputs - a
`Level::None` prepare is rejected, a default timeout is rejected, and a
Majority prepare with an explicit timeout is appended. -/
theorem addSyncWrite_contract_witness :
    addSyncWrite false ⟨[], 0, ⟨none, 0⟩, ⟨none, 0⟩, [], 0, 0, 0⟩ 1 5
        Level.None false none =
      (⟨[], 0, ⟨none, 0⟩, ⟨none, 0⟩, [], 0, 0, 0⟩, some Err.invalidArgument) ∧
    addSyncWrite false ⟨[], 0, ⟨none, 0⟩, ⟨none, 0⟩, [], 0, 0, 0⟩ 1 5
        Level.Majority true none =
      (⟨[], 0, ⟨none, 0⟩, ⟨none, 0⟩, [], 0, 0, 0⟩, some Err.invalidArgument) ∧
    ∃ s1, addSyncWrite false ⟨[], 0, ⟨none, 0⟩, ⟨none, 0⟩, [], 0, 0, 0⟩ 1 5
        Level.Majority false none = (s1, none) ∧
      (∃ pre, s1.trackedWrites = pre ++ [⟨0, 1, 5, Level.Majority, false⟩]) ∧
      s1.totalAccepted = 0 + 1 ∧
      s1.highPreparedSeqno.lastWriteSeqno = 0 ∧
      s1.highCompletedSeqno.lastWriteSeqno = 0 :=
  ⟨(addSyncWrite_contract ⟨[], 0, ⟨none, 0⟩, ⟨none, 0⟩, [], 0, 0, 0⟩ 1 5
      Level.None false none).1 rfl,
   (addSyncWrite_contract ⟨[], 0, ⟨none, 0⟩, ⟨none, 0⟩, [], 0, 0, 0⟩ 1 5
      Level.Majority true none).2.1 (by decide) rfl,
   (addSyncWrite_contract ⟨[], 0, ⟨none, 0⟩, ⟨none, 0⟩, [], 0, 0, 0⟩ 1 5
      Level.Majority false none).2.2 (by decide) rfl
      (fun p hp => Option.noConfusion hp)⟩

/-- Claim C10: `addSyncWrite` with `overwritingPrepareSeqno` present but no
tracked write matching the item's key does not fail: the erase step is
skipped entirely (no write removed, neither cursor touched) and the new write
is appended with `totalAccepted` incremented.  Holds in both build flavours
(the dev-build duplicate check cannot fire without a key match either). -/
theorem addSyncWrite_overwrite_missing_key (d : Bool) (s : State) (key : Nat)
    (seq : Int) (lvl : Level) (p : Int)
    (hlvl : lvl ≠ Level.None)
    (hk : ∀ w ∈ s.trackedWrites, w.key ≠ key) :
    addSyncWrite d s key seq lvl false (some p) =
      ({ s with
          trackedWrites := s.trackedWrites ++ [⟨s.nextId, key, seq, lvl, false⟩]
          nextId := s.nextId + 1
          totalAccepted := s.totalAccepted + 1 }, none) := by
  have hany : s.trackedWrites.any (fun w => !w.completed && w.key == key) = false := by
    rw [List.any_eq_false]
    intro w hw
    simp [hk w hw]
  simp only [addSyncWrite, hlvl, if_false, Bool.false_eq_true,
    owErase_no_match key p s.trackedWrites hk, addAppend, hany, Bool.and_false]
  rfl

/-- Witness for C10: overwriting seqno 5 for key 1 while only key 2 is
tracked - nothing is erased and the key-1 write lands at the tail. -/
theorem addSyncWrite_overwrite_missing_key_witness :
    addSyncWrite true ⟨[⟨0, 2, 10, Level.Majority, false⟩], 1, ⟨some 0, 10⟩,
        ⟨none, 0⟩, [], 1, 0, 0⟩ 1 12 Level.Majority false (some 5) =
      (⟨[⟨0, 2, 10, Level.Majority, false⟩, ⟨1, 1, 12, Level.Majority, false⟩],
        2, ⟨some 0, 10⟩, ⟨none, 0⟩, [], 2, 0, 0⟩, none) :=
  addSyncWrite_overwrite_missing_key true
    ⟨[⟨0, 2, 10, Level.Majority, false⟩], 1, ⟨some 0, 10⟩, ⟨none, 0⟩, [], 1, 0, 0⟩
    1 12 Level.Majority 5 (by decide) (by decide)

/-- Claim C9: `needsRollback` with `start_seqno = 0` and
`strictVbUuidMatch = false` reports no rollback, whatever the table and the
other arguments. -/
theorem needsRollback_start_zero_no_rollback (table : List FailoverEntry)
    (cur vb_uuid snap_start snap_end purge : Nat) (maxC : Option Nat) :
    (needsRollback table 0 cur vb_uuid snap_start snap_end purge false
      maxC).1 = false := by
  simp [needsRollback]
